import Mathlib

/-
Verification of the Stay virtual filesystem (src/stay.js): a hierarchical
filesystem layered over a flat key-value store (IndexedDB), keyed by full
path with a secondary index on the parent-directory field.

The JavaScript source is shallowly embedded below.  Strings are Lean
Strings (logically lists of characters), the store is the ordered list of
records the object store holds, timestamps are naturals passed in
explicitly (the source reads the clock with new Date()), and fallible
operations return Except with the exact error messages the source builds.
Store-level faults (a lookup or delete failing in the underlying store)
are passed in explicitly where a claim needs them.
-/

namespace Stay

/-! ## Path utilities (src/stay.js lines 29-41) -/

/-- One step of slash collapsing: prev is the character just emitted.
Models the regex replace of runs of slashes by a single slash. -/
def collapseAux : Char → List Char → List Char
  | _, [] => []
  | prev, c :: rest =>
    if prev = '/' ∧ c = '/' then collapseAux prev rest
    else c :: collapseAux c rest

/-- Collapse every run of consecutive slashes to a single slash:
the effect of path.replace of all slash runs with one slash in the source. -/
def collapseSlashes : List Char → List Char
  | [] => []
  | c :: rest => c :: collapseAux c rest

/-- normalizePath (line 36): prepend a slash when missing, then collapse
runs of slashes. -/
def normalizePath (p : String) : String :=
  let l := if p.toList.head? = some '/' then p.toList else '/' :: p.toList
  String.mk (collapseSlashes l)

/-- The characters strictly before the last slash of a list (empty when
the list holds no slash).  Used to model substring up to lastIndexOf. -/
def beforeLastSlash (l : List Char) : List Char :=
  ((l.reverse.dropWhile (fun c => c != '/')).drop 1).reverse

/-- getDir (line 29): collapse slashes, take the substring before the last
slash, and fall back to the root when that substring is empty (or when
there is no slash, where the source's substring call also yields the
empty string). -/
def getDir (path : String) : String :=
  let pre := beforeLastSlash (collapseSlashes path.toList)
  if pre = [] then "/" else String.mk pre

/-- isDirectory (line 41): the path ends with a slash. -/
def isDirectory (path : String) : Bool :=
  decide (path.toList.getLast? = some '/')

/-- The characters after the last slash (the whole list when there is no
slash): the value of path.split at the slash followed by pop. -/
def afterLastSlash (l : List Char) : List Char :=
  (l.reverse.takeWhile (fun c => c != '/')).reverse

/-- The last nonempty slash-separated segment (empty when none exists):
split at the slash, filter out empty segments, pop. -/
def lastNonemptySeg (l : List Char) : List Char :=
  ((l.reverse.dropWhile (fun c => c = '/')).takeWhile (fun c => c != '/')).reverse

/-! ## Record model and store (schema from lines 14-17, records from
lines 53-62 and 201-210) -/

/-- A stored record.  The source stores content as a string and the two
timestamps as ISO strings of the current clock; here the clock value is
an abstract natural. -/
structure Entry where
  path : String
  name : String
  dir : String
  content : String
  size : Nat
  type : String
  createdAt : Nat
  updatedAt : Nat
deriving DecidableEq

/-- The object store: the ordered list of records (primary key: path). -/
abbrev Store := List Entry

/-- IndexedDB put: replace the record with the same primary key, or add
the record. -/
def put : Store → Entry → Store
  | [], w => [w]
  | x :: xs, w => if x.path = w.path then w :: xs else x :: put xs w

/-- IndexedDB get by primary key. -/
def getEntry : Store → String → Option Entry
  | [], _ => none
  | e :: rest, p => if e.path = p then some e else getEntry rest p

/-- IndexedDB delete by primary key. -/
def delKey : Store → String → Store
  | [], _ => []
  | e :: rest, p => if e.path = p then delKey rest p else e :: delKey rest p

/-! ## Core file operations (lines 44-106) -/

/-- The record writeFile (line 44) builds: normalized path, basename,
dir from getDir, content as given (the source's fallback to the empty
string only replaces a missing argument, so it is the identity on
strings), size the content length, both timestamps the current clock. -/
def writtenEntry (path content : String) (now : Nat) : Entry :=
  let p := normalizePath path
  { path := p
    name := String.mk (afterLastSlash p.toList)
    dir := getDir p
    content := content
    size := content.length
    type := "file"
    createdAt := now
    updatedAt := now }

/-- writeFile (line 44): build the record and put it. -/
def writeFile (s : Store) (path content : String) (now : Nat) : Store :=
  put s (writtenEntry path content now)

/-- readFile (line 72): get by the normalized path; the content when
found, otherwise the file-not-found rejection the source constructs. -/
def readFile (s : Store) (path : String) : Except String String :=
  match getEntry s (normalizePath path) with
  | some e => Except.ok e.content
  | none => Except.error ("File not found: " ++ normalizePath path)

/-- deleteFile (line 93), success path: delete the normalized key. -/
def deleteFile (s : Store) (path : String) : Store :=
  delKey s (normalizePath path)

/-- deleteFile with a possible synchronous store fault: the catch in the
source wraps the fault message; on success the key is deleted. -/
def deleteFileR (s : Store) (path : String) (fault : Option String) :
    Store × Except String Unit :=
  match fault with
  | some m =>
      (s, Except.error ("Failed to delete file " ++ normalizePath path ++ ": " ++ m))
  | none => (deleteFile s path, Except.ok ())

/-- The metadata rows the scans return (lines 124-131 and 301-308). -/
structure FileMeta where
  name : String
  path : String
  size : Nat
  type : String
  createdAt : Nat
  updatedAt : Nat
deriving DecidableEq

/-- The metadata projection of a record; a falsy (empty) type field falls
back to the file type, as in the source. -/
def toMeta (e : Entry) : FileMeta :=
  { name := e.name
    path := e.path
    size := e.size
    type := if e.type = "" then "file" else e.type
    createdAt := e.createdAt
    updatedAt := e.updatedAt }

/-- listFiles (line 108): normalize the directory, force a trailing
slash, and return the metadata of every record whose dir field equals
that string exactly (the scan over the dir index). -/
def listFiles (s : Store) (dir : String) : List FileMeta :=
  let d1 := normalizePath dir
  let d2 := if isDirectory d1 then d1 else d1 ++ "/"
  (s.filter (fun e => e.dir == d2)).map toMeta

/-- exists (line 143), success path of the lookup. -/
def existsPure (s : Store) (path : String) : Bool :=
  (getEntry s (normalizePath path)).isSome

/-- exists (line 143) over an arbitrary underlying lookup g, which may
fault: a present record gives true, an absent record gives false, and a
faulting lookup resolves false instead of propagating (both the onerror
handler and the catch in the source). -/
def existsF (g : String → Except String (Option Entry)) (path : String) : Bool :=
  match g (normalizePath path) with
  | Except.error _ => false
  | Except.ok r => r.isSome

/-! ## mkdir (line 191) -/

/-- The record mkdir builds: the normalized path with a forced trailing
slash, the last nonempty segment as the name (root when there is none),
dir from getDir, empty content, directory type. -/
def mkdirEntry (path : String) (now : Nat) : Entry :=
  let p1 := normalizePath path
  let p2 := if isDirectory p1 then p1 else p1 ++ "/"
  { path := p2
    name :=
      let seg := lastNonemptySeg p2.toList
      if seg = [] then "root" else String.mk seg
    dir := getDir p2
    content := ""
    size := 0
    type := "directory"
    createdAt := now
    updatedAt := now }

/-- mkdir (line 191): build the directory record and put it. -/
def mkdir (s : Store) (path : String) (now : Nat) : Store :=
  put s (mkdirEntry path now)

/-! ## Composite operations (lines 220-279) and scans (lines 290-344) -/

/-- copyFile (line 220): read the source, then write its content at the
destination; a read failure is wrapped and nothing is written. -/
def copyFileR (s : Store) (src dst : String) (now : Nat) :
    Store × Except String Unit :=
  match readFile s src with
  | Except.error m =>
      (s, Except.error ("Failed to copy file from " ++ src ++ " to " ++ dst ++ ": " ++ m))
  | Except.ok c => (writeFile s dst c now, Except.ok ())

/-- moveFile (line 230): copy, then delete the source; either failure is
wrapped in the move message, and the store keeps whatever the completed
steps produced. -/
def moveFileR (s : Store) (src dst : String) (now : Nat)
    (deleteFault : Option String) : Store × Except String Unit :=
  let c := copyFileR s src dst now
  match c.2 with
  | Except.error m =>
      (c.1, Except.error ("Failed to move file from " ++ src ++ " to " ++ dst ++ ": " ++ m))
  | Except.ok _ =>
    let d := deleteFileR c.1 src deleteFault
    match d.2 with
    | Except.error m =>
        (d.1, Except.error ("Failed to move file from " ++ src ++ " to " ++ dst ++ ": " ++ m))
    | Except.ok _ => (d.1, Except.ok ())

/-- renameFile (line 240): exactly moveFile, with one more message wrap
on failure. -/
def renameFileR (s : Store) (o n : String) (now : Nat)
    (deleteFault : Option String) : Store × Except String Unit :=
  let r := moveFileR s o n now deleteFault
  match r.2 with
  | Except.error m =>
      (r.1, Except.error ("Failed to rename file from " ++ o ++ " to " ++ n ++ ": " ++ m))
  | Except.ok _ => (r.1, Except.ok ())

/-- appendFile (line 249): when the path exists read the current content,
otherwise start from the empty string, then write the concatenation. -/
def appendFileR (s : Store) (path content : String) (now : Nat) :
    Store × Except String Unit :=
  if existsPure s path then
    match readFile s path with
    | Except.error m =>
        (s, Except.error ("Failed to append to file " ++ path ++ ": " ++ m))
    | Except.ok prev => (writeFile s path (prev ++ content) now, Except.ok ())
  else (writeFile s path content now, Except.ok ())

/-- getAllFiles (line 290): the full primary scan, as metadata. -/
def getAllFiles (s : Store) : List FileMeta :=
  s.map toMeta

/-- clear (line 320): delete every record. -/
def clearStore (_ : Store) : Store := []

/-- Case mapping of a string, modelling toLowerCase in the source. -/
def toLowerStr (s : String) : String :=
  String.mk (s.toList.map Char.toLower)

/-- needle starts the haystack: one position of the includes check. -/
def startsWithL : List Char → List Char → Bool
  | [], _ => true
  | _ :: _, [] => false
  | n :: ns, h :: hs => n == h && startsWithL ns hs

/-- Contiguous substring containment on character lists: the semantics
of includes in the source (the empty needle is contained everywhere). -/
def containsL (needle : List Char) : List Char → Bool
  | [] => needle.isEmpty
  | h :: hs => startsWithL needle (h :: hs) || containsL needle hs

/-- search (line 333): scan everything, keep the rows whose lower-cased
name or lower-cased path contains the lower-cased query. -/
def search (s : Store) (q : String) : List FileMeta :=
  (getAllFiles s).filter (fun f =>
    containsL (toLowerStr q).toList (toLowerStr f.name).toList ||
    containsL (toLowerStr q).toList (toLowerStr f.path).toList)

/-! ## Reachable store states: every state produced by a sequence of the
mutating operations, starting from the empty store. -/

inductive Reachable : Store → Prop
  | base : Reachable []
  | write (s : Store) (p c : String) (t : Nat) :
      Reachable s → Reachable (writeFile s p c t)
  | mkDir (s : Store) (p : String) (t : Nat) :
      Reachable s → Reachable (mkdir s p t)
  | del (s : Store) (p : String) :
      Reachable s → Reachable (deleteFile s p)
  | copy (s : Store) (src dst : String) (t : Nat) :
      Reachable s → Reachable (copyFileR s src dst t).1
  | move (s : Store) (src dst : String) (t : Nat) (f : Option String) :
      Reachable s → Reachable (moveFileR s src dst t f).1
  | ren (s : Store) (o n : String) (t : Nat) (f : Option String) :
      Reachable s → Reachable (renameFileR s o n t f).1
  | app (s : Store) (p c : String) (t : Nat) :
      Reachable s → Reachable (appendFileR s p c t).1
  | clearAll (s : Store) :
      Reachable s → Reachable (clearStore s)

/-- A character list with no two adjacent slashes: the shape of a
collapsed path. -/
def noDoubleSlash : List Char → Bool
  | [] => true
  | [_] => true
  | a :: b :: rest => !(a == '/' && b == '/') && noDoubleSlash (b :: rest)

/-- The invariant the dir field of every stored record satisfies: it is
recomputed from the stored path by getDir, and it is a prefix of the
stored path. -/
def DirInv (e : Entry) : Prop :=
  e.dir = getDir e.path ∧ ∃ suf : String, e.path = e.dir ++ suf

/-! ## Store lemmas -/

theorem getEntry_put (s : Store) (w : Entry) :
    getEntry (put s w) w.path = some w := by
  induction s with
  | nil => simp [put, getEntry]
  | cons x xs ih =>
    by_cases h : x.path = w.path
    · simp [put, h, getEntry]
    · simp [put, h, getEntry, ih]

theorem getEntry_put_ne (s : Store) (w : Entry) (q : String) (h : q ≠ w.path) :
    getEntry (put s w) q = getEntry s q := by
  induction s with
  | nil => simp [put, getEntry, Ne.symm h]
  | cons x xs ih =>
    by_cases hx : x.path = w.path
    · have hxq : ¬ x.path = q := by rw [hx]; exact Ne.symm h
      simp [put, hx, getEntry, Ne.symm h, hxq]
    · by_cases hq : x.path = q
      · simp [put, hx, getEntry, hq, h, Ne.symm h]
      · simp [put, hx, getEntry, hq, ih]

theorem getEntry_delKey (s : Store) (p : String) :
    getEntry (delKey s p) p = none := by
  induction s with
  | nil => simp [delKey, getEntry]
  | cons x xs ih =>
    by_cases h : x.path = p
    · simp [delKey, h, ih]
    · simp [delKey, h, getEntry, ih]

theorem mem_put (s : Store) (w e : Entry) (h : e ∈ put s w) :
    e = w ∨ e ∈ s := by
  induction s with
  | nil =>
    simp [put] at h
    exact Or.inl h
  | cons x xs ih =>
    by_cases hx : x.path = w.path
    · simp [put, hx] at h
      rcases h with h | h
      · exact Or.inl h
      · exact Or.inr (List.mem_cons_of_mem _ h)
    · simp [put, hx] at h
      rcases h with h | h
      · exact Or.inr (by simp [h])
      · rcases ih h with h2 | h2
        · exact Or.inl h2
        · exact Or.inr (List.mem_cons_of_mem _ h2)

theorem mem_delKey (s : Store) (p : String) (e : Entry) (h : e ∈ delKey s p) :
    e ∈ s := by
  induction s with
  | nil => simp [delKey] at h
  | cons x xs ih =>
    by_cases hx : x.path = p
    · simp [delKey, hx] at h
      exact List.mem_cons_of_mem _ (ih h)
    · simp [delKey, hx] at h
      rcases h with h | h
      · simp [h]
      · exact List.mem_cons_of_mem _ (ih h)

/-- The path field of the record writeFile builds. -/
theorem writtenEntry_path (p c : String) (t : Nat) :
    (writtenEntry p c t).path = normalizePath p := rfl

/-- Reading a path just written returns exactly the written content. -/
theorem read_after_write (s : Store) (p c : String) (t : Nat) :
    readFile (writeFile s p c t) p = Except.ok c := by
  have h : getEntry (put s (writtenEntry p c t)) (normalizePath p) =
      some (writtenEntry p c t) := getEntry_put s (writtenEntry p c t)
  simp [readFile, writeFile, h]
  rfl

/-- Reading after a write at a different normalized path is unchanged. -/
theorem read_after_write_ne (s : Store) (p q c : String) (t : Nat)
    (h : normalizePath q ≠ normalizePath p) :
    readFile (writeFile s p c t) q = readFile s q := by
  have hne : getEntry (put s (writtenEntry p c t)) (normalizePath q) =
      getEntry s (normalizePath q) :=
    getEntry_put_ne s (writtenEntry p c t) (normalizePath q) h
  simp [readFile, writeFile, hne]

/-! ## Structure of collapsed paths -/

theorem collapseAux_fix (l : List Char) :
    ∀ p : Char, noDoubleSlash (p :: l) = true → collapseAux p l = l := by
  induction l with
  | nil => intro p _; rfl
  | cons c rest ih =>
    intro p h
    have h1 : ¬ (p = '/' ∧ c = '/') := by
      simp [noDoubleSlash] at h
      intro hpc
      exact absurd h.1 (by simp [hpc.1, hpc.2])
    have h2 : noDoubleSlash (c :: rest) = true := by
      simp [noDoubleSlash] at h ⊢
      exact h.2
    simp [collapseAux, h1, ih c h2]

theorem collapseAux_nds (l : List Char) :
    ∀ p : Char, noDoubleSlash (p :: collapseAux p l) = true := by
  induction l with
  | nil => intro p; rfl
  | cons c rest ih =>
    intro p
    by_cases h : p = '/' ∧ c = '/'
    · simp only [collapseAux, if_pos h]
      exact ih p
    · have hb : (p == '/' && c == '/') = false := by
        by_cases hp : p = '/'
        · by_cases hc : c = '/'
          · exact absurd ⟨hp, hc⟩ h
          · simp [hc]
        · simp [hp]
      simp only [collapseAux, if_neg h, noDoubleSlash, Bool.and_eq_true]
      exact ⟨by simp [hb], ih c⟩

theorem collapse_nds (l : List Char) :
    noDoubleSlash (collapseSlashes l) = true := by
  cases l with
  | nil => rfl
  | cons c rest => exact collapseAux_nds rest c

theorem collapse_fix (l : List Char) (h : noDoubleSlash l = true) :
    collapseSlashes l = l := by
  cases l with
  | nil => rfl
  | cons c rest => simp [collapseSlashes, collapseAux_fix rest c h]

/-- Appending a slash to a collapsed list that does not end in a slash
keeps it collapsed. -/
theorem nds_append_slash (l : List Char) (h : noDoubleSlash l = true)
    (hl : l.getLast? ≠ some '/') : noDoubleSlash (l ++ ['/']) = true := by
  induction l with
  | nil => rfl
  | cons a tl ih =>
    cases tl with
    | nil =>
      have ha : ¬ a = '/' := by
        intro hc
        exact hl (by simp [hc])
      simp [noDoubleSlash, ha]
    | cons b rest =>
      simp only [noDoubleSlash, Bool.and_eq_true] at h
      obtain ⟨h1, h2⟩ := h
      have h3 : (b :: rest).getLast? ≠ some '/' := by
        simpa [List.getLast?_cons_cons] using hl
      have h4 := ih h2 h3
      simp only [List.cons_append, noDoubleSlash, Bool.and_eq_true]
      refine ⟨h1, ?_⟩
      simpa [List.cons_append] using h4

/-- Every list is its dropWhile preceded by the dropped part. -/
theorem exists_append_dropWhile (p : Char → Bool) (l : List Char) :
    ∃ t, l = t ++ l.dropWhile p := by
  induction l with
  | nil => exact ⟨[], rfl⟩
  | cons a as ih =>
    cases hpa : p a with
    | false => exact ⟨[], by simp [List.dropWhile_cons, hpa]⟩
    | true =>
      obtain ⟨t, ht⟩ := ih
      exact ⟨a :: t, by simp [List.dropWhile_cons, hpa]; exact ht⟩

theorem exists_append_drop_one (l : List Char) : ∃ t, l = t ++ l.drop 1 := by
  cases l with
  | nil => exact ⟨[], rfl⟩
  | cons a as => exact ⟨[a], rfl⟩

/-- The characters before the last slash are a prefix of the list. -/
theorem beforeLastSlash_split (l : List Char) :
    ∃ t, l = beforeLastSlash l ++ t := by
  obtain ⟨t1, h1⟩ := exists_append_dropWhile (fun c => c != '/') l.reverse
  obtain ⟨t2, h2⟩ := exists_append_drop_one (l.reverse.dropWhile (fun c => c != '/'))
  refine ⟨t2.reverse ++ t1.reverse, ?_⟩
  have : l.reverse.reverse =
      (t1 ++ (t2 ++ ((l.reverse.dropWhile (fun c => c != '/')).drop 1))).reverse := by
    rw [← h2, ← h1]
  simpa [beforeLastSlash, List.reverse_append, List.append_assoc] using this

/-- On a slash-headed collapsed path, getDir is a prefix of the path. -/
theorem getDir_split (q : String) (h1 : q.toList.head? = some '/')
    (h2 : noDoubleSlash q.toList = true) :
    ∃ suf : String, q = getDir q ++ suf := by
  have hfix : collapseSlashes q.toList = q.toList := collapse_fix _ h2
  by_cases hp : beforeLastSlash q.toList = []
  · obtain ⟨r, hr⟩ : ∃ r, q.toList = '/' :: r := by
      cases hq : q.toList with
      | nil => rw [hq] at h1; simp at h1
      | cons a r =>
        rw [hq] at h1
        have ha : a = '/' := by simpa using h1
        exact ⟨r, by rw [ha]⟩
    have hg : getDir q = "/" := by
      simp only [getDir]
      rw [hfix, if_pos hp]
    refine ⟨String.mk r, ?_⟩
    rw [hg]
    calc q = String.mk q.toList := rfl
    _ = String.mk ('/' :: r) := by rw [hr]
    _ = "/" ++ String.mk r := rfl
  · obtain ⟨t, ht⟩ := beforeLastSlash_split q.toList
    have hg : getDir q = String.mk (beforeLastSlash q.toList) := by
      simp only [getDir]
      rw [hfix, if_neg hp]
    refine ⟨String.mk t, ?_⟩
    rw [hg]
    calc q = String.mk q.toList := rfl
    _ = String.mk (beforeLastSlash q.toList ++ t) := by rw [← ht]
    _ = String.mk (beforeLastSlash q.toList) ++ String.mk t := rfl

/-! ## Normalized paths are slash-headed and collapsed -/

theorem normalizePath_cons (p : String) :
    ∃ r, (normalizePath p).toList = '/' :: r := by
  simp only [normalizePath]
  by_cases h : p.toList.head? = some '/'
  · obtain ⟨a, r0, hr⟩ : ∃ a r0, p.toList = a :: r0 := by
      cases hq : p.toList with
      | nil => rw [hq] at h; simp at h
      | cons a r0 => exact ⟨a, r0, rfl⟩
    have ha : a = '/' := by
      rw [hr] at h
      simpa using h
    rw [if_pos h, hr, ha]
    exact ⟨collapseAux '/' r0, rfl⟩
  · rw [if_neg h]
    exact ⟨collapseAux '/' p.toList, rfl⟩

theorem normalizePath_head (p : String) :
    (normalizePath p).toList.head? = some '/' := by
  obtain ⟨r, hr⟩ := normalizePath_cons p
  rw [hr]
  rfl

theorem normalizePath_nds (p : String) :
    noDoubleSlash (normalizePath p).toList = true := by
  simp only [normalizePath]
  exact collapse_nds _

/-! ## The parent-directory invariant -/

theorem writtenEntry_dirInv (p c : String) (t : Nat) :
    DirInv (writtenEntry p c t) := by
  constructor
  · rfl
  · exact getDir_split (normalizePath p) (normalizePath_head p) (normalizePath_nds p)

/-- The path mkdir stores is slash-headed and collapsed. -/
theorem mkdirEntry_path_shape (p : String) (t : Nat) :
    (mkdirEntry p t).path.toList.head? = some '/' ∧
    noDoubleSlash (mkdirEntry p t).path.toList = true := by
  have hpath : (mkdirEntry p t).path =
      (if isDirectory (normalizePath p) then normalizePath p
       else normalizePath p ++ "/") := rfl
  by_cases hd : isDirectory (normalizePath p)
  · rw [hpath, if_pos hd]
    exact ⟨normalizePath_head p, normalizePath_nds p⟩
  · rw [hpath, if_neg hd]
    obtain ⟨r, hr⟩ := normalizePath_cons p
    have hlist : (normalizePath p ++ "/").toList = (normalizePath p).toList ++ ['/'] := rfl
    constructor
    · rw [hlist, hr]
      rfl
    · rw [hlist]
      refine nds_append_slash _ (normalizePath_nds p) ?_
      intro hc
      exact hd (by simp only [isDirectory, decide_eq_true_eq]; exact hc)

theorem mkdirEntry_dirInv (p : String) (t : Nat) :
    DirInv (mkdirEntry p t) := by
  obtain ⟨hh, hn⟩ := mkdirEntry_path_shape p t
  constructor
  · rfl
  · exact getDir_split _ hh hn

/-- Every record of every reachable store satisfies the invariant. -/
theorem allDirInv_write (s : Store) (p c : String) (t : Nat)
    (h : ∀ e ∈ s, DirInv e) : ∀ e ∈ writeFile s p c t, DirInv e := by
  intro e he
  rcases mem_put s (writtenEntry p c t) e he with rfl | h2
  · exact writtenEntry_dirInv p c t
  · exact h e h2

theorem allDirInv_mkdir (s : Store) (p : String) (t : Nat)
    (h : ∀ e ∈ s, DirInv e) : ∀ e ∈ mkdir s p t, DirInv e := by
  intro e he
  rcases mem_put s (mkdirEntry p t) e he with rfl | h2
  · exact mkdirEntry_dirInv p t
  · exact h e h2

theorem allDirInv_delete (s : Store) (p : String)
    (h : ∀ e ∈ s, DirInv e) : ∀ e ∈ deleteFile s p, DirInv e := by
  intro e he
  exact h e (mem_delKey s (normalizePath p) e he)

theorem allDirInv_copy (s : Store) (src dst : String) (t : Nat)
    (h : ∀ e ∈ s, DirInv e) : ∀ e ∈ (copyFileR s src dst t).1, DirInv e := by
  cases hr : readFile s src with
  | error m => simpa [copyFileR, hr] using h
  | ok c => simpa [copyFileR, hr] using allDirInv_write s dst c t h

theorem allDirInv_deleteR (s : Store) (p : String) (f : Option String)
    (h : ∀ e ∈ s, DirInv e) : ∀ e ∈ (deleteFileR s p f).1, DirInv e := by
  cases f with
  | none => simpa [deleteFileR] using allDirInv_delete s p h
  | some m => simpa [deleteFileR] using h

theorem allDirInv_move (s : Store) (src dst : String) (t : Nat) (f : Option String)
    (h : ∀ e ∈ s, DirInv e) : ∀ e ∈ (moveFileR s src dst t f).1, DirInv e := by
  have hc := allDirInv_copy s src dst t h
  cases h2 : (copyFileR s src dst t).2 with
  | error m => simpa [moveFileR, h2] using hc
  | ok u =>
    have hd := allDirInv_deleteR (copyFileR s src dst t).1 src f hc
    cases h3 : (deleteFileR (copyFileR s src dst t).1 src f).2 with
    | error m => simpa [moveFileR, h2, h3] using hd
    | ok u2 => simpa [moveFileR, h2, h3] using hd

theorem allDirInv_rename (s : Store) (o n : String) (t : Nat) (f : Option String)
    (h : ∀ e ∈ s, DirInv e) : ∀ e ∈ (renameFileR s o n t f).1, DirInv e := by
  have hm := allDirInv_move s o n t f h
  cases h2 : (moveFileR s o n t f).2 with
  | error m => simpa [renameFileR, h2] using hm
  | ok u => simpa [renameFileR, h2] using hm

theorem allDirInv_append (s : Store) (p c : String) (t : Nat)
    (h : ∀ e ∈ s, DirInv e) : ∀ e ∈ (appendFileR s p c t).1, DirInv e := by
  by_cases hx : existsPure s p
  · cases hr : readFile s p with
    | error m => simpa [appendFileR, hx, hr] using h
    | ok prev => simpa [appendFileR, hx, hr] using allDirInv_write s p (prev ++ c) t h
  · simpa [appendFileR, hx] using allDirInv_write s p c t h

theorem reachable_allDirInv (s : Store) (hs : Reachable s) :
    ∀ e ∈ s, DirInv e := by
  induction hs with
  | base => intro e he; simp at he
  | write s p c t _ ih => exact allDirInv_write s p c t ih
  | mkDir s p t _ ih => exact allDirInv_mkdir s p t ih
  | del s p _ ih => exact allDirInv_delete s p ih
  | copy s src dst t _ ih => exact allDirInv_copy s src dst t ih
  | move s src dst t f _ ih => exact allDirInv_move s src dst t f ih
  | ren s o n t f _ ih => exact allDirInv_rename s o n t f ih
  | app s p c t _ ih => exact allDirInv_append s p c t ih
  | clearAll s _ _ => intro e he; simp [clearStore] at he

/-! ## Claim theorems -/

/-- Claim C1 (code evaluation): after writeFile at the raw path slash-a,
double-slash, b.txt with content hi, the stored record has exactly the
normalized path, name b.txt and size 2, but its dir field is the string
slash-a with no trailing separator, and listFiles of slash-a (and even
of slash-a-slash) returns no entries, because listFiles queries the dir
index with a forced trailing separator that getDir never produces for a
non-root parent. -/
theorem write_then_list_behavior :
    getEntry (writeFile [] "/a//b.txt" "hi" 0) "/a/b.txt" =
      some (writtenEntry "/a//b.txt" "hi" 0) ∧
    (writtenEntry "/a//b.txt" "hi" 0).path = "/a/b.txt" ∧
    (writtenEntry "/a//b.txt" "hi" 0).name = "b.txt" ∧
    (writtenEntry "/a//b.txt" "hi" 0).size = 2 ∧
    (writtenEntry "/a//b.txt" "hi" 0).dir = "/a" ∧
    listFiles (writeFile [] "/a//b.txt" "hi" 0) "/a" = [] ∧
    listFiles (writeFile [] "/a//b.txt" "hi" 0) "/a/" = [] := by
  decide

/-- Claim C2 counterexample: writing the same path twice, at clock 1 and
then at clock 2, leaves createdAt equal to 2, not to the original 1 —
createdAt does not survive an overwrite. -/
theorem createdAt_reset_cex :
    (getEntry (writeFile (writeFile [] "/p" "x" 1) "/p" "y" 2) "/p").map
      Entry.createdAt = some 2 ∧
    (getEntry (writeFile (writeFile [] "/p" "x" 1) "/p" "y" 2) "/p").map
      Entry.createdAt ≠ some 1 := by
  decide

/-- Claim C2 (amended): every write stores a record whose createdAt and
updatedAt both equal the clock of that write, whatever record was there
before — writeFile rebuilds the whole record and never preserves the
prior createdAt. -/
theorem write_sets_timestamps (s : Store) (p c : String) (t : Nat) :
    ∃ e, getEntry (writeFile s p c t) (normalizePath p) = some e ∧
      e.createdAt = t ∧ e.updatedAt = t ∧ e.content = c :=
  ⟨writtenEntry p c t, getEntry_put s (writtenEntry p c t), rfl, rfl, rfl⟩

/-- Claim C3 counterexample: the record written at slash-a-slash-b.txt is
in a reachable store and its dir field is the string slash-a, which does
not end in a separator. -/
theorem dir_trailing_sep_cex :
    Reachable (writeFile [] "/a/b.txt" "hi" 0) ∧
    writtenEntry "/a/b.txt" "hi" 0 ∈ writeFile [] "/a/b.txt" "hi" 0 ∧
    (writtenEntry "/a/b.txt" "hi" 0).dir = "/a" ∧
    isDirectory (writtenEntry "/a/b.txt" "hi" 0).dir = false :=
  ⟨Reachable.write [] "/a/b.txt" "hi" 0 Reachable.base, by decide, by decide,
    by decide⟩

/-- Claim C3 (amended): in every reachable store state, every record
satisfies dir equals getDir of the stored path (the substring preceding
the last separator, the root when none remains), recomputed by the
engine from the path; dir is a prefix of the stored path, though it ends
in a separator only when it is the root. -/
theorem reachable_dir_invariant (s : Store) (hs : Reachable s) (e : Entry)
    (he : e ∈ s) :
    e.dir = getDir e.path ∧ ∃ suf : String, e.path = e.dir ++ suf :=
  reachable_allDirInv s hs e he

/-- Witness for the reachable-store invariant at a concrete write. -/
theorem reachable_dir_invariant_witness :
    (writtenEntry "/x/y" "z" 5).dir = getDir (writtenEntry "/x/y" "z" 5).path ∧
    ∃ suf : String, (writtenEntry "/x/y" "z" 5).path =
      (writtenEntry "/x/y" "z" 5).dir ++ suf :=
  reachable_dir_invariant (writeFile [] "/x/y" "z" 5)
    (Reachable.write [] "/x/y" "z" 5 Reachable.base)
    (writtenEntry "/x/y" "z" 5) (by decide)

/-- Claim C4 counterexample: when the copy step succeeds and the delete
step faults, moveFile fails with the generic wrapped move message — a
plain error string carrying no distinct partial-completion tag — while
the content is present at both source and destination. -/
theorem move_no_tagged_error_cex :
    (moveFileR (writeFile [] "/s" "x" 0) "/s" "/d" 1 (some "boom")).2 =
      Except.error
        "Failed to move file from /s to /d: Failed to delete file /s: boom" ∧
    containsL ("PartialCompletion".toList)
      ("Failed to move file from /s to /d: Failed to delete file /s: boom".toList)
      = false ∧
    readFile (moveFileR (writeFile [] "/s" "x" 0) "/s" "/d" 1 (some "boom")).1
      "/s" = Except.ok "x" ∧
    readFile (moveFileR (writeFile [] "/s" "x" 0) "/s" "/d" 1 (some "boom")).1
      "/d" = Except.ok "x" :=
  ⟨rfl, by decide, rfl, rfl⟩

/-- Claim C4 (amended): whenever the source record exists and the delete
step faults, moveFile fails with the wrapped generic move error built
from the delete message (the code defines no distinguished
partial-completion error kind), and the store keeps the content at both
the source and the destination paths. -/
theorem move_delete_fault_duplicates (s : Store) (src dst : String) (t : Nat)
    (e : Entry) (m : String) (h : getEntry s (normalizePath src) = some e) :
    (moveFileR s src dst t (some m)).1 = writeFile s dst e.content t ∧
    (moveFileR s src dst t (some m)).2 = Except.error
      ("Failed to move file from " ++ src ++ " to " ++ dst ++ ": " ++
        ("Failed to delete file " ++ normalizePath src ++ ": " ++ m)) ∧
    readFile (moveFileR s src dst t (some m)).1 src = Except.ok e.content ∧
    readFile (moveFileR s src dst t (some m)).1 dst = Except.ok e.content := by
  have hr : readFile s src = Except.ok e.content := by simp [readFile, h]
  have hc : copyFileR s src dst t = (writeFile s dst e.content t, Except.ok ()) := by
    simp [copyFileR, hr]
  have hm : moveFileR s src dst t (some m) =
      (writeFile s dst e.content t, Except.error
        ("Failed to move file from " ++ src ++ " to " ++ dst ++ ": " ++
          ("Failed to delete file " ++ normalizePath src ++ ": " ++ m))) := by
    simp [moveFileR, hc, deleteFileR]
  have hsrc : readFile (writeFile s dst e.content t) src = Except.ok e.content := by
    by_cases hsd : normalizePath src = normalizePath dst
    · have hg : getEntry (put s (writtenEntry dst e.content t))
          (normalizePath dst) = some (writtenEntry dst e.content t) :=
        getEntry_put s (writtenEntry dst e.content t)
      simp only [readFile, writeFile, hsd, hg]
      rfl
    · rw [read_after_write_ne s dst src e.content t hsd]
      simp [readFile, h]
  exact ⟨by rw [hm], by rw [hm], by rw [hm]; exact hsrc,
    by rw [hm]; exact read_after_write s dst e.content t⟩

/-- Witness for the duplicated-content result of a faulted delete. -/
theorem move_delete_fault_duplicates_witness :
    getEntry (writeFile [] "/s" "x" 0) (normalizePath "/s") =
      some (writtenEntry "/s" "x" 0) ∧
    readFile (moveFileR (writeFile [] "/s" "x" 0) "/s" "/d" 1 (some "boom")).1
      "/d" = Except.ok (writtenEntry "/s" "x" 0).content :=
  ⟨by decide, (move_delete_fault_duplicates (writeFile [] "/s" "x" 0) "/s" "/d"
    1 (writtenEntry "/s" "x" 0) "boom" (by decide)).2.2.2⟩

/-- Claim C5 counterexample: with no record at the source but a record
already at the destination, moveFile fails, yet exists of the
destination is true afterwards, not false. -/
theorem move_missing_src_dst_exists_cex :
    getEntry (writeFile [] "/d" "v" 0) (normalizePath "/s") = none ∧
    (moveFileR (writeFile [] "/d" "v" 0) "/s" "/d" 1 none).2 =
      Except.error
        "Failed to move file from /s to /d: Failed to copy file from /s to /d: File not found: /s" ∧
    existsPure (moveFileR (writeFile [] "/d" "v" 0) "/s" "/d" 1 none).1 "/d" =
      true :=
  ⟨by decide, rfl, by decide⟩

/-- Claim C5 (amended): when the source has no record, moveFile fails
with the wrapped not-found error before the delete step runs, and the
store is returned unchanged — so exists of the destination keeps its
prior value (false exactly when the destination had no record) and the
source state is untouched. -/
theorem move_missing_src_unchanged (s : Store) (src dst : String) (t : Nat)
    (h : getEntry s (normalizePath src) = none) :
    moveFileR s src dst t none =
      (s, Except.error ("Failed to move file from " ++ src ++ " to " ++ dst ++
        ": " ++ ("Failed to copy file from " ++ src ++ " to " ++ dst ++ ": " ++
          ("File not found: " ++ normalizePath src)))) ∧
    existsPure s src = false := by
  have hr : readFile s src =
      Except.error ("File not found: " ++ normalizePath src) := by
    simp [readFile, h]
  have hc : copyFileR s src dst t =
      (s, Except.error ("Failed to copy file from " ++ src ++ " to " ++ dst ++
        ": " ++ ("File not found: " ++ normalizePath src))) := by
    simp [copyFileR, hr]
  constructor
  · simp [moveFileR, hc]
  · simp [existsPure, h]

/-- Witness for the unchanged-store result of a move with a missing
source. -/
theorem move_missing_src_unchanged_witness :
    getEntry ([] : Store) (normalizePath "/s") = none ∧
    (moveFileR [] "/s" "/d" 0 none).1 = ([] : Store) :=
  ⟨rfl, by rw [(move_missing_src_unchanged [] "/s" "/d" 0 rfl).1]⟩

/-- Claim C6: for every path string p and every string content c (the
empty string included), writeFile at p followed by readFile at p yields
exactly c; writeFile is total on strings, so the write itself cannot
fail. -/
theorem write_read_roundtrip (s : Store) (p c : String) (t : Nat) :
    readFile (writeFile s p c t) p = Except.ok c :=
  read_after_write s p c t

/-- Claim C7: starting from a store with no record at p, appending the
one-character content a and then b succeeds at both steps and leaves
reading p equal to ab — a missing record appends onto the empty string. -/
theorem append_append_concat (s : Store) (p : String) (t1 t2 : Nat)
    (h : getEntry s (normalizePath p) = none) :
    (appendFileR s p "a" t1).2 = Except.ok () ∧
    (appendFileR (appendFileR s p "a" t1).1 p "b" t2).2 = Except.ok () ∧
    readFile (appendFileR (appendFileR s p "a" t1).1 p "b" t2).1 p =
      Except.ok "ab" := by
  have hx1 : existsPure s p = false := by simp [existsPure, h]
  have e1 : appendFileR s p "a" t1 = (writeFile s p "a" t1, Except.ok ()) := by
    simp [appendFileR, hx1]
  have hg : getEntry (writeFile s p "a" t1) (normalizePath p) =
      some (writtenEntry p "a" t1) := getEntry_put s (writtenEntry p "a" t1)
  have hx2 : existsPure (writeFile s p "a" t1) p = true := by
    simp [existsPure, hg]
  have hread1 : readFile (writeFile s p "a" t1) p = Except.ok "a" :=
    read_after_write s p "a" t1
  have hab : ("a" ++ "b" : String) = "ab" := by decide
  have e2 : appendFileR (writeFile s p "a" t1) p "b" t2 =
      (writeFile (writeFile s p "a" t1) p "ab" t2, Except.ok ()) := by
    simp [appendFileR, hx2, hread1, hab]
  refine ⟨by rw [e1], by rw [e1, e2], ?_⟩
  rw [e1, e2]
  exact read_after_write (writeFile s p "a" t1) p "ab" t2

/-- Witness for the append-append concatenation starting from the empty
store. -/
theorem append_append_concat_witness :
    getEntry ([] : Store) (normalizePath "/log.txt") = none ∧
    readFile (appendFileR (appendFileR [] "/log.txt" "a" 1).1 "/log.txt" "b"
      2).1 "/log.txt" = Except.ok "ab" :=
  ⟨rfl, (append_append_concat [] "/log.txt" 1 2 rfl).2.2⟩

/-- Claim C8: for every underlying lookup behavior g and every path, the
exists operation resolves with a boolean; whenever the underlying lookup
faults it resolves false instead of propagating, and it resolves true
exactly when the lookup succeeds with a record present. -/
theorem exists_no_error (g : String → Except String (Option Entry))
    (p : String) :
    (existsF g p = true ∨ existsF g p = false) ∧
    (∀ m, g (normalizePath p) = Except.error m → existsF g p = false) ∧
    (existsF g p = true ↔ ∃ e, g (normalizePath p) = Except.ok (some e)) := by
  refine ⟨Bool.eq_false_or_eq_true _, ?_, ?_⟩
  · intro m hm
    simp [existsF, hm]
  · cases hg : g (normalizePath p) with
    | error m => simp [existsF, hg]
    | ok r =>
      cases r with
      | none => simp [existsF, hg]
      | some e => simp [existsF, hg]

/-- Witness: a faulting lookup makes exists resolve false. -/
theorem exists_no_error_witness :
    existsF (fun _ => Except.error "store fault") "/x" = false :=
  (exists_no_error (fun _ => Except.error "store fault") "/x").2.1
    "store fault" rfl

/-- Claim C9: search returns exactly the rows of the full scan whose
lower-cased name or lower-cased path contains the lower-cased query as a
contiguous substring, and the results are a sublist of the scan — the
scan order is preserved, with no ranking. -/
theorem search_filter_spec (s : Store) (q : String) :
    (∀ f, f ∈ search s q ↔ f ∈ getAllFiles s ∧
      (containsL (toLowerStr q).toList (toLowerStr f.name).toList = true ∨
       containsL (toLowerStr q).toList (toLowerStr f.path).toList = true)) ∧
    List.Sublist (search s q) (getAllFiles s) := by
  constructor
  · intro f
    simp [search, List.mem_filter, Bool.or_eq_true]
  · exact List.filter_sublist _

/-- Claim C10: moving a path onto itself when a record is present
succeeds and destroys the record: the copy rewrites the same key, the
delete then removes it, and afterwards the path neither exists nor holds
a record. -/
theorem move_same_path_destroys (s : Store) (p : String) (t : Nat) (e : Entry)
    (h : getEntry s (normalizePath p) = some e) :
    (moveFileR s p p t none).2 = Except.ok () ∧
    existsPure (moveFileR s p p t none).1 p = false ∧
    getEntry (moveFileR s p p t none).1 (normalizePath p) = none := by
  have hr : readFile s p = Except.ok e.content := by simp [readFile, h]
  have hc : copyFileR s p p t = (writeFile s p e.content t, Except.ok ()) := by
    simp [copyFileR, hr]
  have hm : moveFileR s p p t none =
      (deleteFile (writeFile s p e.content t) p, Except.ok ()) := by
    simp [moveFileR, hc, deleteFileR]
  have hd : getEntry (deleteFile (writeFile s p e.content t) p)
      (normalizePath p) = none :=
    getEntry_delKey (writeFile s p e.content t) (normalizePath p)
  rw [hm]
  exact ⟨rfl, by simp [existsPure, hd], hd⟩

/-- Witness: a concrete self-move loses the record. -/
theorem move_same_path_destroys_witness :
    getEntry (writeFile [] "/p" "x" 0) (normalizePath "/p") =
      some (writtenEntry "/p" "x" 0) ∧
    existsPure (moveFileR (writeFile [] "/p" "x" 0) "/p" "/p" 1 none).1 "/p" =
      false :=
  ⟨by decide, (move_same_path_destroys (writeFile [] "/p" "x" 0) "/p" 1
    (writtenEntry "/p" "x" 0) (by decide)).2.1⟩

end Stay
